import Mathlib

/-!
Verification of the gvar glyph-variation core of the fontations repository.

The definitions below shallowly embed the Rust code of
`src/read-fonts/src/tables/gvar.rs` and `src/punchcut/src/scaler.rs`.
Fixed-point numbers are represented by their raw bit patterns as
unbounded integers: a `Fixed` (signed 32-bit, 16.16) value is the integer
of its bits, so `Fixed::ONE = 65536`; an `F2Dot14` (signed 16-bit, 2.14)
value is the integer of its bits, so `F2Dot14::ONE = 16384`.
Byte buffers (`FontData`) are lists of naturals.
-/

namespace Fontations

/-- Modelled from the spec: `Fixed::mul_div(a, b) = self·a/b` computed with
64-bit intermediate precision and truncation toward zero (the `Fixed` numeric
helper lives outside `src/`; §3 of the spec gives this contract). -/
def mulDiv (x a b : Int) : Int :=
  (x * a).tdiv b

/-- Modelled from the spec: `F2Dot14::to_fixed` converts 2.14 bits to 16.16
bits, i.e. multiplies the bit pattern by 4 (1.0 is 16384 in 2.14 and 65536 in
16.16). -/
def toFixed (c : Int) : Int :=
  c * 4

/-- `Fixed::ZERO` as bits. -/
def fixedZERO : Int := 0

/-- `Fixed::ONE` as bits. -/
def fixedONE : Int := 65536

/-- Embedding of `TupleVariationHeader` as seen through the accessors that
`gvar.rs` uses. Modelled from the spec: the header type itself is declared in
`variations.rs`, which is outside `src/`; §3 and §6 of the spec describe its
accessors: `tuple_index().tuple_records_index()` (the low 12 bits, present
when the embedded-peak-tuple flag is clear), `peak_tuple()` (present when that
flag is set), the optional `intermediate_start_tuple()` /
`intermediate_end_tuple()`, `variation_data_size()`, and
`tuple_index().private_point_numbers()`. Tuples are lists of F2Dot14 bits. -/
structure TupleVariationHeader where
  tuple_records_index : Option Nat
  peak_tuple : Option (List Int)
  intermediate_start_tuple : Option (List Int)
  intermediate_end_tuple : Option (List Int)
  variation_data_size : Nat
  private_point_numbers : Bool
deriving Repr, DecidableEq

/-- Embedding of `TupleVariation<'a>` from `gvar.rs`: `axis_count`, the
header, the shared tuples (each a list of F2Dot14 bits), and the raw bytes of
the point numbers and packed deltas. -/
structure TupleVariation where
  axis_count : Nat
  header : TupleVariationHeader
  shared_tuples : List (List Int)
  point_numbers : List Nat
  packed_deltas : List Nat
deriving Repr, DecidableEq

/-- Embedding of `TupleVariation::peak` from `gvar.rs`:
`self.header.tuple_index().tuple_records_index()
   .and_then(|idx| self.shared_tuples.tuples().get(idx as usize).ok())
   .or_else(|| self.header.peak_tuple())
   .unwrap_or_default()`.
The default `Tuple` is empty. -/
def TupleVariation.peak (tv : TupleVariation) : List Int :=
  match tv.header.tuple_records_index.bind (fun idx => tv.shared_tuples.get? idx) with
  | some t => t
  | none =>
    match tv.header.peak_tuple with
    | some t => t
    | none => []

/-- The per-axis loop of `TupleVariation::compute_scalar` from `gvar.rs`,
starting at axis `i` with `fuel` axes left and the running `scalar`
(Fixed bits). Each axis either continues (factor 1), returns `none`
(tuple not applicable), or multiplies the scalar by the piecewise-linear
factor via `mul_div`. -/
def computeScalarFrom (tv : TupleVariation) (coords : List Int) (peak : List Int)
    (i : Nat) (fuel : Nat) (scalar : Int) : Option Int :=
  match fuel with
  | 0 => some scalar
  | fuel + 1 =>
    let coord := toFixed ((coords.get? i).getD 0)
    let pk := toFixed ((peak.get? i).getD 0)
    if pk = fixedZERO ∨ pk = coord then
      computeScalarFrom tv coords peak (i + 1) fuel scalar
    else if coord = fixedZERO then
      none
    else
      match tv.header.intermediate_start_tuple, tv.header.intermediate_end_tuple with
      | some interStart, some interEnd =>
        let s := toFixed ((interStart.get? i).getD 0)
        let e := toFixed ((interEnd.get? i).getD 0)
        if coord ≤ s ∨ e ≤ coord then none
        else if coord < pk then
          computeScalarFrom tv coords peak (i + 1) fuel (mulDiv scalar (coord - s) (pk - s))
        else
          computeScalarFrom tv coords peak (i + 1) fuel (mulDiv scalar (e - coord) (e - pk))
      | _, _ =>
        if coord < min pk fixedZERO ∨ max pk fixedZERO < coord then none
        else computeScalarFrom tv coords peak (i + 1) fuel (mulDiv scalar coord pk)

/-- Embedding of `TupleVariation::compute_scalar` from `gvar.rs`: start from
`Fixed::ONE`, bail out with `none` when the peak tuple length does not match
`axis_count`, otherwise run the per-axis loop over all axes. `coords` is the
slice of F2Dot14 bit patterns. -/
def computeScalar (tv : TupleVariation) (coords : List Int) : Option Int :=
  let peak := tv.peak
  if peak.length ≠ tv.axis_count then none
  else computeScalarFrom tv coords peak 0 tv.axis_count fixedONE

end Fontations

namespace Fontations

/-- A concrete one-axis tuple variation with embedded peak 0.5 (F2Dot14 bits
8192) and no intermediate region, as in spec scenario S5. -/
def tvS5 : TupleVariation :=
  { axis_count := 1,
    header := { tuple_records_index := none, peak_tuple := some [8192],
                intermediate_start_tuple := none, intermediate_end_tuple := none,
                variation_data_size := 0, private_point_numbers := true },
    shared_tuples := [], point_numbers := [], packed_deltas := [] }

/-- A concrete one-axis tuple variation with peak -0.5 and intermediate region
start -1, end 0 (F2Dot14 bits), as in spec scenario S6. -/
def tvS6 : TupleVariation :=
  { axis_count := 1,
    header := { tuple_records_index := none, peak_tuple := some [-8192],
                intermediate_start_tuple := some [-16384],
                intermediate_end_tuple := some [0],
                variation_data_size := 0, private_point_numbers := true },
    shared_tuples := [], point_numbers := [], packed_deltas := [] }

end Fontations

/-- C1: for a one-axis tuple variation without an intermediate region whose
peak is 0.5 (F2Dot14 bits 8192), `compute_scalar` at coords `[0.25]` (bits
4096) returns `Fixed` 0.5 (bits 32768, computed through `mul_div` with
truncation toward zero), and at coords `[-0.25]` (bits -4096) returns `none`,
since the coordinate falls outside `[min(peak, 0), max(peak, 0)]`. -/
theorem compute_scalar_s5 (tv : Fontations.TupleVariation)
    (hax : tv.axis_count = 1)
    (hpk : tv.peak = [8192])
    (hni : tv.header.intermediate_start_tuple = none) :
    Fontations.computeScalar tv [4096] = some 32768 ∧
      Fontations.computeScalar tv [-4096] = none := by
  constructor
  · simp only [Fontations.computeScalar, hpk, hax, Fontations.computeScalarFrom, hni]
    norm_num [Fontations.toFixed, Fontations.mulDiv, Fontations.fixedZERO, Fontations.fixedONE]
    decide
  · simp only [Fontations.computeScalar, hpk, hax, Fontations.computeScalarFrom, hni]
    norm_num [Fontations.toFixed, Fontations.mulDiv, Fontations.fixedZERO, Fontations.fixedONE]

/-- Witness for C1 at the concrete `tvS5`. -/
theorem compute_scalar_s5_witness :
    Fontations.computeScalar Fontations.tvS5 [4096] = some 32768 ∧
      Fontations.computeScalar Fontations.tvS5 [-4096] = none :=
  compute_scalar_s5 Fontations.tvS5 rfl rfl rfl

/-- C5: whenever the selected peak tuple's length differs from `axis_count`,
`compute_scalar` returns `none` for every coords slice, before any per-axis
computation. -/
theorem compute_scalar_peak_len_mismatch (tv : Fontations.TupleVariation)
    (coords : List Int) (h : tv.peak.length ≠ tv.axis_count) :
    Fontations.computeScalar tv coords = none := by
  simp [Fontations.computeScalar, h]

/-- Witness for C5: a tuple variation with one axis but an empty peak tuple. -/
theorem compute_scalar_peak_len_mismatch_witness :
    Fontations.computeScalar
      { axis_count := 1,
        header := { tuple_records_index := none, peak_tuple := none,
                    intermediate_start_tuple := none, intermediate_end_tuple := none,
                    variation_data_size := 0, private_point_numbers := true },
        shared_tuples := [], point_numbers := [], packed_deltas := [] } [4096] = none :=
  compute_scalar_peak_len_mismatch _ [4096] (by decide)

namespace Fontations

/-- A concrete tuple variation whose header carries both a shared-tuple index
and an embedded peak tuple; used to witness the peak-selection precedence. -/
def tvShared : TupleVariation :=
  { axis_count := 1,
    header := { tuple_records_index := some 0, peak_tuple := some [8192],
                intermediate_start_tuple := none, intermediate_end_tuple := none,
                variation_data_size := 0, private_point_numbers := true },
    shared_tuples := [[123]], point_numbers := [], packed_deltas := [] }

end Fontations

/-- C4: `TupleVariation::peak` precedence: a set `tuple_records_index` that
resolves to a shared tuple wins (even when an embedded peak tuple is also
present); otherwise the embedded peak tuple is returned; when neither is
available the default empty (all-zeros) tuple is returned. -/
theorem peak_precedence (tv : Fontations.TupleVariation) :
    (∀ idx t, tv.header.tuple_records_index = some idx →
        tv.shared_tuples.get? idx = some t → tv.peak = t) ∧
    (∀ p, tv.header.peak_tuple = some p →
        (tv.header.tuple_records_index = none ∨
          ∃ idx, tv.header.tuple_records_index = some idx ∧
            tv.shared_tuples.get? idx = none) →
        tv.peak = p) ∧
    ((tv.header.tuple_records_index = none ∨
        ∃ idx, tv.header.tuple_records_index = some idx ∧
          tv.shared_tuples.get? idx = none) →
      tv.header.peak_tuple = none → tv.peak = []) := by
  refine ⟨fun idx t hi hsh => ?_, fun p hp hr => ?_, fun hr hp => ?_⟩
  · have hsh' : tv.shared_tuples[idx]? = some t := by simpa using hsh
    simp [Fontations.TupleVariation.peak, hi, hsh']
  · cases hr with
    | inl h => simp [Fontations.TupleVariation.peak, hp, h]
    | inr h =>
      obtain ⟨idx, hi, hsh⟩ := h
      have hsh' : tv.shared_tuples[idx]? = none := by simpa using hsh
      simp [Fontations.TupleVariation.peak, hp, hi, hsh']
  · cases hr with
    | inl h => simp [Fontations.TupleVariation.peak, hp, h]
    | inr h =>
      obtain ⟨idx, hi, hsh⟩ := h
      have hsh' : tv.shared_tuples[idx]? = none := by simpa using hsh
      simp [Fontations.TupleVariation.peak, hp, hi, hsh']

/-- Witness for C4: on `tvShared` the shared tuple `[123]` wins over the
embedded peak tuple `[8192]`. -/
theorem peak_precedence_witness : Fontations.tvShared.peak = [123] :=
  (peak_precedence Fontations.tvShared).1 0 [123] rfl rfl

/-- Helper: if the axes `i` with an intermediate region hits the boundary
(`coord_i = start_i` or `coord_i = end_i`, with `peak_i` nonzero and distinct
from `coord_i`, all as F2Dot14 bits), then the per-axis loop started anywhere
at or before `i` with enough fuel returns `none`, whatever the running
scalar. -/
theorem computeScalarFrom_boundary_none (tv : Fontations.TupleVariation)
    (coords peak interStart interEnd : List Int)
    (hsi : tv.header.intermediate_start_tuple = some interStart)
    (hei : tv.header.intermediate_end_tuple = some interEnd)
    (i : Nat)
    (hpk : (peak.get? i).getD 0 ≠ 0)
    (hne : (peak.get? i).getD 0 ≠ (coords.get? i).getD 0)
    (hbd : (coords.get? i).getD 0 = (interStart.get? i).getD 0 ∨
           (coords.get? i).getD 0 = (interEnd.get? i).getD 0) :
    ∀ fuel j scalar, j ≤ i → i < j + fuel →
      Fontations.computeScalarFrom tv coords peak j fuel scalar = none := by
  intro fuel
  induction fuel with
  | zero => intro j scalar h1 h2; omega
  | succ fuel ih =>
    intro j scalar hji hij
    rw [Fontations.computeScalarFrom]
    simp only [hsi, hei]
    by_cases hj : j = i
    · subst hj
      rw [if_neg]
      · by_cases hc0 : Fontations.toFixed ((coords.get? j).getD 0) = Fontations.fixedZERO
        · rw [if_pos hc0]
        · rw [if_neg hc0, if_pos]
          cases hbd with
          | inl h => exact Or.inl (by simp only [Fontations.toFixed]; omega)
          | inr h => exact Or.inr (by simp only [Fontations.toFixed]; omega)
      · push_neg
        constructor
        · simp only [Fontations.toFixed, Fontations.fixedZERO]
          omega
        · simp only [Fontations.toFixed]
          omega
    · have hji' : j + 1 ≤ i := by omega
      split
      · exact ih (j + 1) scalar hji' (by omega)
      · split
        · rfl
        · split
          · rfl
          · split
            · exact ih (j + 1) _ hji' (by omega)
            · exact ih (j + 1) _ hji' (by omega)

/-- C2: for a one-axis tuple variation with intermediate region start -1,
peak -0.5, end 0 (F2Dot14 bits -16384, -8192, 0), `compute_scalar` at coords
`[-0.75]` (bits -12288) returns `Fixed` 0.5 (bits 32768), the piecewise-linear
ratio `(coord - start) / (peak - start)`; and for every tuple variation with
an intermediate region, a coordinate exactly equal to the region's start or
end on some axis (with that axis's peak nonzero and unequal to the
coordinate) makes `compute_scalar` return `none`. -/
theorem compute_scalar_s6 :
    (∀ tv : Fontations.TupleVariation,
        tv.axis_count = 1 → tv.peak = [-8192] →
        tv.header.intermediate_start_tuple = some [-16384] →
        tv.header.intermediate_end_tuple = some [0] →
        Fontations.computeScalar tv [-12288] = some 32768) ∧
    (∀ (tv : Fontations.TupleVariation) (coords interStart interEnd : List Int) (i : Nat),
        tv.header.intermediate_start_tuple = some interStart →
        tv.header.intermediate_end_tuple = some interEnd →
        i < tv.axis_count →
        ((tv.peak.get? i).getD 0 ≠ 0) →
        ((tv.peak.get? i).getD 0 ≠ (coords.get? i).getD 0) →
        ((coords.get? i).getD 0 = (interStart.get? i).getD 0 ∨
          (coords.get? i).getD 0 = (interEnd.get? i).getD 0) →
        Fontations.computeScalar tv coords = none) := by
  constructor
  · intro tv hax hpk hsi hei
    simp only [Fontations.computeScalar, hpk, hax, Fontations.computeScalarFrom, hsi, hei]
    norm_num [Fontations.toFixed, Fontations.mulDiv, Fontations.fixedZERO, Fontations.fixedONE]
    decide
  · intro tv coords interStart interEnd i hsi hei hi hpk hne hbd
    by_cases hlen : tv.peak.length ≠ tv.axis_count
    · simp [Fontations.computeScalar, hlen]
    · simp only [Fontations.computeScalar, hlen, if_false]
      exact computeScalarFrom_boundary_none tv coords tv.peak interStart interEnd hsi hei i
        hpk hne hbd tv.axis_count 0 Fontations.fixedONE (Nat.zero_le i) (by omega)

/-- Witness for C2 at the concrete `tvS6`: the interior coordinate -0.75
yields scalar 0.5, and the boundary coordinate -1 (the region start) yields
`none`. -/
theorem compute_scalar_s6_witness :
    Fontations.computeScalar Fontations.tvS6 [-12288] = some 32768 ∧
      Fontations.computeScalar Fontations.tvS6 [-16384] = none :=
  ⟨compute_scalar_s6.1 Fontations.tvS6 rfl rfl rfl rfl,
   compute_scalar_s6.2 Fontations.tvS6 [-16384] [-16384] [0] 0 rfl rfl
     (by decide) (by decide) (by decide) (by decide)⟩

/-- For a nonnegative `x` and a ratio `a/b` with `0 ≤ a ≤ b`, `b > 0`,
truncating `mul_div` stays within `[0, x]`. -/
theorem mulDiv_mem_Icc_of_pos (x a b : Int) (hx : 0 ≤ x) (ha : 0 ≤ a)
    (hab : a ≤ b) (hb : 0 < b) :
    0 ≤ Fontations.mulDiv x a b ∧ Fontations.mulDiv x a b ≤ x := by
  unfold Fontations.mulDiv
  constructor
  · exact Int.tdiv_nonneg (mul_nonneg hx ha) (le_of_lt hb)
  · rw [Int.tdiv_eq_ediv (mul_nonneg hx ha) (le_of_lt hb)]
    calc x * a / b ≤ x * b / b := Int.ediv_le_ediv hb (mul_le_mul_of_nonneg_left hab hx)
    _ = x := Int.mul_ediv_cancel x (ne_of_gt hb)

/-- The mirrored case: `a` and `b` both nonpositive with `b ≤ a`, `b < 0`. -/
theorem mulDiv_mem_Icc_of_neg (x a b : Int) (hx : 0 ≤ x) (ha : a ≤ 0)
    (hab : b ≤ a) (hb : b < 0) :
    0 ≤ Fontations.mulDiv x a b ∧ Fontations.mulDiv x a b ≤ x := by
  have hflip : Fontations.mulDiv x (-a) (-b) = Fontations.mulDiv x a b := by
    unfold Fontations.mulDiv
    rw [mul_neg, Int.neg_tdiv_neg]
  rw [← hflip]
  exact mulDiv_mem_Icc_of_pos x (-a) (-b) hx (by omega) (by omega) (by omega)

/-- The per-axis loop of `compute_scalar` never increases a nonnegative
running scalar and never drives it below zero. -/
theorem computeScalarFrom_bounds (tv : Fontations.TupleVariation)
    (coords peak : List Int) :
    ∀ (fuel j : Nat) (scalar s : Int), 0 ≤ scalar →
      Fontations.computeScalarFrom tv coords peak j fuel scalar = some s →
      0 ≤ s ∧ s ≤ scalar := by
  intro fuel
  induction fuel with
  | zero =>
    intro j scalar s hs h
    simp only [Fontations.computeScalarFrom, Option.some.injEq] at h
    subst h
    exact ⟨hs, le_refl _⟩
  | succ fuel ih =>
    intro j scalar s hs h
    simp only [Fontations.computeScalarFrom] at h
    split at h
    · exact ih _ _ _ hs h
    · split at h
      · exact absurd h (by simp)
      · rename_i hcond hc0
        split at h
        · rename_i interStart interEnd hsi hei
          split at h
          · exact absurd h (by simp)
          · rename_i hbd
            push_neg at hbd
            split at h
            · rename_i hlt
              have hstep := mulDiv_mem_Icc_of_pos scalar
                (Fontations.toFixed ((coords.get? j).getD 0)
                  - Fontations.toFixed ((interStart.get? j).getD 0))
                (Fontations.toFixed ((peak.get? j).getD 0)
                  - Fontations.toFixed ((interStart.get? j).getD 0))
                hs (by omega) (by omega) (by omega)
              have hrec := ih _ _ _ hstep.1 h
              exact ⟨hrec.1, le_trans hrec.2 hstep.2⟩
            · rename_i hge
              push_neg at hge
              have hne : Fontations.toFixed ((peak.get? j).getD 0)
                  ≠ Fontations.toFixed ((coords.get? j).getD 0) := fun hcon =>
                hcond (Or.inr hcon)
              have hstep := mulDiv_mem_Icc_of_pos scalar
                (Fontations.toFixed ((interEnd.get? j).getD 0)
                  - Fontations.toFixed ((coords.get? j).getD 0))
                (Fontations.toFixed ((interEnd.get? j).getD 0)
                  - Fontations.toFixed ((peak.get? j).getD 0))
                hs (by omega) (by omega) (by omega)
              have hrec := ih _ _ _ hstep.1 h
              exact ⟨hrec.1, le_trans hrec.2 hstep.2⟩
        · split at h
          · exact absurd h (by simp)
          · rename_i hrange
            push_neg at hrange
            have hpk0 : Fontations.toFixed ((peak.get? j).getD 0) ≠ Fontations.fixedZERO :=
              fun hcon => hcond (Or.inl hcon)
            rcases lt_or_gt_of_ne hpk0 with hneg | hpos
            · have hstep := mulDiv_mem_Icc_of_neg scalar
                (Fontations.toFixed ((coords.get? j).getD 0))
                (Fontations.toFixed ((peak.get? j).getD 0))
                hs ?_ ?_ ?_
              · have hrec := ih _ _ _ hstep.1 h
                exact ⟨hrec.1, le_trans hrec.2 hstep.2⟩
              · have := hrange.2
                simp only [Fontations.fixedZERO] at *
                omega
              · have := hrange.1
                simp only [Fontations.fixedZERO] at *
                omega
              · simp only [Fontations.fixedZERO] at hneg
                omega
            · have hstep := mulDiv_mem_Icc_of_pos scalar
                (Fontations.toFixed ((coords.get? j).getD 0))
                (Fontations.toFixed ((peak.get? j).getD 0))
                hs ?_ ?_ ?_
              · have hrec := ih _ _ _ hstep.1 h
                exact ⟨hrec.1, le_trans hrec.2 hstep.2⟩
              · have := hrange.1
                simp only [Fontations.fixedZERO] at *
                omega
              · have := hrange.2
                simp only [Fontations.fixedZERO] at *
                omega
              · simp only [Fontations.fixedZERO] at hpos
                omega

/-- C3: whenever `compute_scalar` returns a present value, that value lies in
`[0, 1]` as a `Fixed` (i.e. in `[0, 65536]` as bits). -/
theorem compute_scalar_in_unit_interval (tv : Fontations.TupleVariation)
    (coords : List Int) (s : Int)
    (h : Fontations.computeScalar tv coords = some s) :
    0 ≤ s ∧ s ≤ Fontations.fixedONE := by
  simp only [Fontations.computeScalar] at h
  split at h
  · exact absurd h (by simp)
  · exact computeScalarFrom_bounds tv coords tv.peak tv.axis_count 0 _ s
      (by norm_num [Fontations.fixedONE]) h

/-- Witness for C3 at `tvS5` with coords `[0.25]`, whose scalar is 0.5. -/
theorem compute_scalar_in_unit_interval_witness :
    0 ≤ (32768 : Int) ∧ (32768 : Int) ≤ Fontations.fixedONE :=
  compute_scalar_in_unit_interval Fontations.tvS5 [4096] 32768 (by decide)

/-- Helper for C10: the per-axis loop only inspects coordinate entries at
positions `j ≤ i < j + fuel`, so two coords lists agreeing there give the
same outcome. -/
theorem computeScalarFrom_congr_coords (tv : Fontations.TupleVariation)
    (peak : List Int) :
    ∀ (fuel j : Nat) (scalar : Int) (coords coords' : List Int),
      (∀ i, j ≤ i → i < j + fuel → coords.get? i = coords'.get? i) →
      Fontations.computeScalarFrom tv coords peak j fuel scalar =
        Fontations.computeScalarFrom tv coords' peak j fuel scalar := by
  intro fuel
  induction fuel with
  | zero => intro j scalar coords coords' _; rfl
  | succ fuel ih =>
    intro j scalar coords coords' hagree
    have hj : coords.get? j = coords'.get? j := hagree j (le_refl j) (by omega)
    have hrest : ∀ i, j + 1 ≤ i → i < j + 1 + fuel → coords.get? i = coords'.get? i :=
      fun i h1 h2 => hagree i (by omega) (by omega)
    rw [Fontations.computeScalarFrom, Fontations.computeScalarFrom, hj]
    simp only [ih (j + 1) _ coords coords' hrest]

/-- C10: `compute_scalar` reads at most the first `axis_count` entries of the
coords slice: on any longer slice the result equals the result on the prefix
of length `axis_count`, and a too-long slice is not an error. -/
theorem compute_scalar_ignores_extra_coords (tv : Fontations.TupleVariation)
    (coords : List Int) (h : tv.axis_count < coords.length) :
    Fontations.computeScalar tv coords =
      Fontations.computeScalar tv (coords.take tv.axis_count) := by
  simp only [Fontations.computeScalar]
  split
  · rfl
  · exact computeScalarFrom_congr_coords tv tv.peak tv.axis_count 0 _ coords
      (coords.take tv.axis_count)
      (fun i h1 h2 => (List.get?_take (by omega)).symm)

/-- Witness for C10 at `tvS5`: a two-entry coords slice on the one-axis tuple
behaves exactly like its one-entry prefix. -/
theorem compute_scalar_ignores_extra_coords_witness :
    Fontations.computeScalar Fontations.tvS5 [4096, 99] =
      Fontations.computeScalar Fontations.tvS5 ([4096, 99].take Fontations.tvS5.axis_count) :=
  compute_scalar_ignores_extra_coords Fontations.tvS5 [4096, 99] (by decide)

namespace Fontations

/-- Modelled from the spec: `FontData::read_at::<T>(offset)` decodes a
big-endian scalar of a fixed byte width at `offset`, bounds-checked
(`FontData` lives outside `src/`; §4.1 of the spec gives this contract).
Bytes are naturals below 256; a read past the end yields `none`
(`ReadError::OutOfBounds`). -/
def readBEAt (data : List Nat) (off width : Nat) : Option Nat :=
  if off + width ≤ data.length then
    some (((data.drop off).take width).foldl (fun acc b => acc * 256 + b) 0)
  else none

/-- Embedding of `U16Or32::read_with_args` from `gvar.rs`: when
`LONG_OFFSETS` is set, read a `u32` at offset 0; otherwise read a `u16` at
offset 0 and multiply it by 2. The result is the contained `u32`
(`U16Or32::get`). -/
def u16Or32ReadWithArgs (data : List Nat) (longOffsets : Bool) : Option Nat :=
  if longOffsets then
    readBEAt data 0 4
  else
    (readBEAt data 0 2).map (fun v => v * 2)

end Fontations

/-- C6: with `LONG_OFFSETS` clear, `U16Or32::read_with_args` reads a 16-bit
big-endian value and doubles it (an on-disk short offset of 1 is interpreted
as byte offset 2); with `LONG_OFFSETS` set it reads a 32-bit big-endian value
unmodified. -/
theorem u16_or_32_read (b0 b1 b2 b3 : Nat) (rest : List Nat) :
    Fontations.u16Or32ReadWithArgs (b0 :: b1 :: rest) false
        = some ((b0 * 256 + b1) * 2) ∧
      Fontations.u16Or32ReadWithArgs [0, 1] false = some 2 ∧
      Fontations.u16Or32ReadWithArgs (b0 :: b1 :: b2 :: b3 :: rest) true
        = some (((b0 * 256 + b1) * 256 + b2) * 256 + b3) := by
  refine ⟨?_, by decide, ?_⟩
  · simp [Fontations.u16Or32ReadWithArgs, Fontations.readBEAt, List.take_cons]
  · simp [Fontations.u16Or32ReadWithArgs, Fontations.readBEAt, List.take_cons]

namespace Fontations

/-- The error taxonomy surfaced by the readers (spec §6/§7). -/
inductive ReadError where
  | OutOfBounds
  | InvalidFormat
  | MalformedData
deriving Repr, DecidableEq

/-- Modelled from the spec: `FontData::slice(range)` produces a sub-window,
`none` if the range is out of range (start past end, or end past the
window's length). `FontData` lives outside `src/`; §4.1 of the spec gives
this contract. -/
def fontDataSlice (data : List Nat) (start stop : Nat) : Option (List Nat) :=
  if start ≤ stop ∧ stop ≤ data.length then
    some ((data.drop start).take (stop - start))
  else none

/-- Embedding of the `Gvar` table as `data_for_gid` consumes it: the table's
own byte window (`self.data`), the `LONG_OFFSETS` flag, the
`glyph_variation_data_array_offset` field, and the raw bytes of the
`glyph_variation_data_offsets` array. -/
structure Gvar where
  data : List Nat
  long_offsets : Bool
  glyph_variation_data_array_offset : Nat
  offsets_data : List Nat
deriving Repr, DecidableEq

/-- Modelled from the spec: `glyph_variation_data_offsets().get(idx)` reads
the `idx`-th `U16Or32` element of the offsets array (element width 2 or 4 by
`LONG_OFFSETS`), yielding `ReadError::OutOfBounds` when the element cannot be
read; the accessor is generated code outside `src/`. Short offsets come back
already doubled, per `U16Or32::read_with_args`. -/
def Gvar.offsetGet (g : Gvar) (idx : Nat) : Except ReadError Nat :=
  match u16Or32ReadWithArgs
      (g.offsets_data.drop (idx * (if g.long_offsets then 4 else 2)))
      g.long_offsets with
  | some v => Except.ok v
  | none => Except.error ReadError.OutOfBounds

/-- The `u32` additions `data_start + ...get()` of `gvar.rs`:
`glyph_variation_data_array_offset()` and `U16Or32::get` both return `u32`,
so the sums wrap modulo 2^32 (release-build semantics; a debug build would
panic on overflow instead of wrapping). -/
def addU32 (a b : Nat) : Nat :=
  (a + b) % 4294967296

/-- Embedding of `Gvar::data_for_gid` from `gvar.rs`: read the offsets at
`gid` and `gid + 1`, add `glyph_variation_data_array_offset` to each with
wrapping `u32` addition, and slice the table data, turning a failed slice
into `ReadError::OutOfBounds`. -/
def Gvar.dataForGid (g : Gvar) (gid : Nat) : Except ReadError (List Nat) :=
  let start_idx := gid
  let end_idx := start_idx + 1
  let data_start := g.glyph_variation_data_array_offset
  match g.offsetGet start_idx with
  | Except.error e => Except.error e
  | Except.ok o1 =>
    match g.offsetGet end_idx with
    | Except.error e => Except.error e
    | Except.ok o2 =>
      match fontDataSlice g.data (addU32 data_start o1) (addU32 data_start o2) with
      | some d => Except.ok d
      | none => Except.error ReadError.OutOfBounds

end Fontations

/-- C7: `Gvar::data_for_gid(gid)` computes `start`/`end` as
`glyph_variation_data_array_offset` plus the offsets at `gid` and `gid + 1`
(wrapping `u32` sums, as both operands are `u32` in the source) and slices
the table data on `start..end`; a successful result is a sub-range of the
table with `start ≤ end`, and an unreadable offset or an invalid range
(including `end < start`) yields `ReadError::OutOfBounds`. -/
theorem data_for_gid_spec (g : Fontations.Gvar) (gid : Nat) :
    (∀ o1 o2, g.offsetGet gid = Except.ok o1 → g.offsetGet (gid + 1) = Except.ok o2 →
        g.dataForGid gid =
          match Fontations.fontDataSlice g.data
              (Fontations.addU32 g.glyph_variation_data_array_offset o1)
              (Fontations.addU32 g.glyph_variation_data_array_offset o2) with
          | some d => Except.ok d
          | none => Except.error Fontations.ReadError.OutOfBounds) ∧
    ((∃ e, g.offsetGet gid = Except.error e) ∨
        (∃ e, g.offsetGet (gid + 1) = Except.error e) →
      g.dataForGid gid = Except.error Fontations.ReadError.OutOfBounds) ∧
    (∀ d, g.dataForGid gid = Except.ok d →
      ∃ start stop, start ≤ stop ∧ stop ≤ g.data.length ∧
        d = (g.data.drop start).take (stop - start)) := by
  refine ⟨fun o1 o2 h1 h2 => ?_, fun herr => ?_, fun d hd => ?_⟩
  · simp only [Fontations.Gvar.dataForGid, h1, h2]
  · have hoob : ∀ idx e, g.offsetGet idx = Except.error e →
        e = Fontations.ReadError.OutOfBounds := by
      intro idx e h
      unfold Fontations.Gvar.offsetGet at h
      split at h
      · exact absurd h (by simp)
      · simpa using h.symm
    cases herr with
    | inl h =>
      obtain ⟨e, he⟩ := h
      have := hoob gid e he
      subst this
      simp only [Fontations.Gvar.dataForGid, he]
    | inr h =>
      obtain ⟨e, he⟩ := h
      have := hoob (gid + 1) e he
      subst this
      cases h1 : g.offsetGet gid with
      | error e' =>
        have := hoob gid e' h1
        subst this
        simp only [Fontations.Gvar.dataForGid, h1]
      | ok o1 =>
        simp only [Fontations.Gvar.dataForGid, h1, he]
  · simp only [Fontations.Gvar.dataForGid] at hd
    cases h1 : g.offsetGet gid with
    | error e =>
      simp only [h1] at hd
      exact absurd hd (by simp)
    | ok o1 =>
      simp only [h1] at hd
      cases h2 : g.offsetGet (gid + 1) with
      | error e =>
        simp only [h2] at hd
        exact absurd hd (by simp)
      | ok o2 =>
        simp only [h2] at hd
        cases hs : Fontations.fontDataSlice g.data
            (Fontations.addU32 g.glyph_variation_data_array_offset o1)
            (Fontations.addU32 g.glyph_variation_data_array_offset o2) with
        | none =>
          simp only [hs] at hd
          exact absurd hd (by simp)
        | some d' =>
          simp only [hs, Except.ok.injEq] at hd
          subst hd
          unfold Fontations.fontDataSlice at hs
          split at hs
          · rename_i hcond
            refine ⟨Fontations.addU32 g.glyph_variation_data_array_offset o1,
              Fontations.addU32 g.glyph_variation_data_array_offset o2,
              hcond.1, hcond.2, ?_⟩
            simpa using hs.symm
          · exact absurd hs (by simp)

namespace Fontations

/-- A concrete four-byte `gvar` window with short offsets 0 and 1 (doubled to
byte offsets 0 and 2). -/
def gvarEx : Gvar :=
  { data := [10, 11, 12, 13], long_offsets := false,
    glyph_variation_data_array_offset := 0, offsets_data := [0, 0, 0, 1] }

end Fontations

/-- Witness for C7 at `gvarEx` and glyph id 0, whose offsets read as 0 and
2. -/
theorem data_for_gid_spec_witness :
    Fontations.gvarEx.dataForGid 0 =
      match Fontations.fontDataSlice Fontations.gvarEx.data
          (Fontations.addU32 Fontations.gvarEx.glyph_variation_data_array_offset 0)
          (Fontations.addU32 Fontations.gvarEx.glyph_variation_data_array_offset 2) with
      | some d => Except.ok d
      | none => Except.error Fontations.ReadError.OutOfBounds :=
  (data_for_gid_spec Fontations.gvarEx 0).1 0 2 rfl rfl

namespace Fontations

/-- Modelled from the spec: `FontData::take_up_to(n)` splits off the first
`n` bytes, producing the prefix and the remaining window, `none` when fewer
than `n` bytes remain (`FontData` lives outside `src/`; §3/§4.1 of the spec
give this contract). -/
def takeUpTo (data : List Nat) (n : Nat) : Option (List Nat × List Nat) :=
  if n ≤ data.length then some (data.take n, data.drop n) else none

/-- Modelled from the spec: the count prefix of a packed-point-numbers
stream: one byte when its high bit is clear, else two bytes holding a 15-bit
count (§4.3). Returns the count and the number of header bytes consumed; a
truncated two-byte header keeps whatever is present. -/
def packedPointCountHeader (data : List Nat) : Nat × Nat :=
  match data with
  | [] => (0, 0)
  | b0 :: rest =>
    if b0 < 128 then (b0, 1)
    else
      match rest with
      | [] => (b0 % 128 * 256, 1)
      | b1 :: _ => (b0 % 128 * 256 + b1, 2)

/-- Modelled from the spec: the byte length of the point-number runs covering
`remaining` points. Each run is a control byte (bit 7 selects 16-bit deltas,
bits 0-6 hold run length minus one) followed by the run's delta bytes
(§4.3). `fuel` bounds the recursion; each run covers at least one point, so
`remaining` itself is enough fuel. -/
def packedPointRunsLength (fuel : Nat) (data : List Nat) (remaining : Nat) : Nat :=
  match fuel with
  | 0 => 0
  | fuel + 1 =>
    if remaining = 0 then 0
    else
      match data with
      | [] => 0
      | c :: rest =>
        let runLen := c % 128 + 1
        let wordSize := if 128 ≤ c then 2 else 1
        let bytes := runLen * wordSize
        1 + bytes + packedPointRunsLength fuel (rest.drop bytes) (remaining - runLen)

/-- Modelled from the spec: `PackedPointNumbers::split_off_front` measures
the packed-point-numbers prefix (count header plus runs) and splits the
window there, returning the prefix bytes and the remainder (§4.3/§4.4; the
codec lives in `variations.rs`, outside `src/`). -/
def packedPointNumbersSplitOffFront (data : List Nat) : List Nat × List Nat :=
  let ch := packedPointCountHeader data
  let total := ch.2 + packedPointRunsLength ch.1 (data.drop ch.2) ch.1
  (data.take total, data.drop total)

/-- Embedding of the state of `TupleVariationIter<'a>` from `gvar.rs`:
`current`, the parent `GlyphVariationData`'s fields that `next_tuple` reads
(`tuple_count`, `axis_count`, `shared_tuples`, `shared_point_numbers`), the
pending headers of the header iterator (each already parsed to
`Ok`/`Err` as the Rust header iterator yields `Option<Result<..>>`), and the
remaining serialized body bytes. -/
structure TupleVariationIter where
  current : Nat
  parent_tuple_count : Nat
  parent_axis_count : Nat
  parent_shared_tuples : List (List Int)
  parent_shared_point_numbers : Option (List Nat)
  headers : List (Except ReadError TupleVariationHeader)
  serialized_data : List Nat
deriving Repr

/-- Embedding of `TupleVariationIter::next_tuple` from `gvar.rs`: stop at
`tuple_count`; pull the next header, discarding an iterator end or a header
error; take `variation_data_size` bytes of body; then either split private
point numbers off the body, or clone the parent's shared point numbers,
short-circuiting to `none` when the parent has none. Returns the yielded
`TupleVariation` and the advanced iterator state. -/
def nextTuple (it : TupleVariationIter) : Option (TupleVariation × TupleVariationIter) :=
  if it.parent_tuple_count = it.current then none
  else
    let current := it.current + 1
    match it.headers with
    | [] => none
    | Except.error _ :: _ => none
    | Except.ok header :: restHeaders =>
      match takeUpTo it.serialized_data header.variation_data_size with
      | none => none
      | some (varData, restData) =>
        let split :=
          if header.private_point_numbers then
            some (packedPointNumbersSplitOffFront varData)
          else
            it.parent_shared_point_numbers.map (fun pn => (pn, varData))
        match split with
        | none => none
        | some (pointNumbers, packedDeltas) =>
          some ({ axis_count := it.parent_axis_count,
                  header := header,
                  shared_tuples := it.parent_shared_tuples,
                  point_numbers := pointNumbers,
                  packed_deltas := packedDeltas },
                { it with current := current, headers := restHeaders,
                          serialized_data := restData })

end Fontations

/-- C8: when the next tuple's header has the private-point-numbers flag unset
and the enclosing glyph variation data has no shared point numbers,
`TupleVariationIter::next` yields `none` for that tuple: it silently
vanishes, ending iteration without surfacing an error. -/
theorem next_tuple_vanishes_without_shared_points
    (it : Fontations.TupleVariationIter)
    (header : Fontations.TupleVariationHeader)
    (rest : List (Except Fontations.ReadError Fontations.TupleVariationHeader))
    (hh : it.headers = Except.ok header :: rest)
    (hpriv : header.private_point_numbers = false)
    (hshared : it.parent_shared_point_numbers = none) :
    Fontations.nextTuple it = none := by
  unfold Fontations.nextTuple
  split
  · rfl
  · rw [hh]
    cases ht : Fontations.takeUpTo it.serialized_data header.variation_data_size with
    | none => simp [ht]
    | some p => simp [ht, hpriv, hshared]

/-- Witness for C8: a one-tuple iterator whose header carries no private
point numbers over a parent without shared point numbers. -/
theorem next_tuple_vanishes_without_shared_points_witness :
    Fontations.nextTuple
      { current := 0, parent_tuple_count := 1, parent_axis_count := 1,
        parent_shared_tuples := [], parent_shared_point_numbers := none,
        headers := [Except.ok
          { tuple_records_index := none, peak_tuple := some [8192],
            intermediate_start_tuple := none, intermediate_end_tuple := none,
            variation_data_size := 2, private_point_numbers := false }],
        serialized_data := [7, 7] } = none :=
  next_tuple_vanishes_without_shared_points _ _ _ rfl rfl rfl

namespace Fontations

/-- Embedding of a user variation setting `Variation { tag, value }` consumed
by `ScalerBuilder::variations` in `scaler.rs`. Only the setting's presence
matters to the builder-state claims, so the `f32` value is abstracted as an
integer payload. -/
structure Variation where
  tag : Nat
  value : Int
deriving Repr, DecidableEq

/-- The `Context` fields that `ScalerBuilder` in `scaler.rs` mutates: the
normalized coords buffer (F2Dot14 bits) and the pending user variation
settings. -/
structure Context where
  coords : List Int
  variations : List Variation
deriving Repr, DecidableEq

/-- Embedding of `ScalerBuilder::new` from `scaler.rs`: clears the context's
coords and variations. -/
def scalerBuilderNew (_ctx : Context) : Context :=
  { coords := [], variations := [] }

/-- Embedding of `ScalerBuilder::coords` from `scaler.rs`: clears the stored
variations, clears the stored coords, then extends the (now empty) coords
with the given ones. -/
def scalerBuilderCoords (ctx : Context) (cs : List Int) : Context :=
  { ctx with variations := [], coords := [] ++ cs }

/-- Embedding of `ScalerBuilder::variations` from `scaler.rs`: clears the
stored coords, then extends the stored variations with the given ones. -/
def scalerBuilderVariations (ctx : Context) (vs : List Variation) : Context :=
  { ctx with coords := [], variations := ctx.variations ++ vs }

/-- One call in a builder call sequence. -/
inductive ScalerBuilderOp where
  | newOp : ScalerBuilderOp
  | coordsOp (cs : List Int) : ScalerBuilderOp
  | variationsOp (vs : List Variation) : ScalerBuilderOp

/-- Apply one builder call to the context. -/
def applyOp (ctx : Context) (op : ScalerBuilderOp) : Context :=
  match op with
  | ScalerBuilderOp.newOp => scalerBuilderNew ctx
  | ScalerBuilderOp.coordsOp cs => scalerBuilderCoords ctx cs
  | ScalerBuilderOp.variationsOp vs => scalerBuilderVariations ctx vs

end Fontations

/-- Each builder call preserves "at most one of coords/variations is
non-empty". -/
theorem applyOp_foldl_exclusive (ops : List Fontations.ScalerBuilderOp) :
    ∀ ctx : Fontations.Context, (ctx.coords = [] ∨ ctx.variations = []) →
      ((ops.foldl Fontations.applyOp ctx).coords = [] ∨
        (ops.foldl Fontations.applyOp ctx).variations = []) := by
  induction ops with
  | nil => intro ctx h; exact h
  | cons op rest ih =>
    intro ctx h
    apply ih
    cases op with
    | newOp => exact Or.inl rfl
    | coordsOp cs => exact Or.inr rfl
    | variationsOp vs => exact Or.inl rfl

/-- C9: normalized coords and user variation settings are mutually exclusive
in the scaler builder: `new` clears both, `coords` clears variations before
storing coords, `variations` clears coords before storing variations, and
after any sequence of these calls at most one of the two collections is
non-empty. -/
theorem scaler_builder_exclusive :
    (∀ ctx : Fontations.Context,
      (Fontations.scalerBuilderNew ctx).coords = [] ∧
        (Fontations.scalerBuilderNew ctx).variations = []) ∧
    (∀ (ctx : Fontations.Context) (cs : List Int),
      (Fontations.scalerBuilderCoords ctx cs).variations = [] ∧
        (Fontations.scalerBuilderCoords ctx cs).coords = cs) ∧
    (∀ (ctx : Fontations.Context) (vs : List Fontations.Variation),
      (Fontations.scalerBuilderVariations ctx vs).coords = []) ∧
    (∀ (ctx : Fontations.Context) (ops : List Fontations.ScalerBuilderOp),
      (ops.foldl Fontations.applyOp (Fontations.scalerBuilderNew ctx)).coords = [] ∨
        (ops.foldl Fontations.applyOp (Fontations.scalerBuilderNew ctx)).variations = []) := by
  refine ⟨fun ctx => ⟨rfl, rfl⟩, fun ctx cs => ⟨rfl, by simp [Fontations.scalerBuilderCoords]⟩,
    fun ctx vs => rfl, fun ctx ops => ?_⟩
  exact applyOp_foldl_exclusive ops (Fontations.scalerBuilderNew ctx) (Or.inl rfl)
